import Mathlib

/-!
# Verification of the stacked-portrayals stack-trace remapper

A shallow embedding of the core of the `stacked-portrayals` program
(`src/stacktrace.rs`, `src/mappings.rs`, `src/mappings/{cache,tiny,raw}.rs`)
into Lean, with theorems settling the specification claims.

Rust `HashMap`s are modelled as association lists; the list order is a
deterministic abstraction of the map's (unspecified) iteration order, and
`insert` overwrites as in `HashMap::insert`.  Rust strings are Lean `String`s.
Fallible operations return `Option`/`Except`; panics are an explicit
constructor.
-/

namespace StackedPortrayals

/-! ## String helpers (models of the Rust `str` operations used by the code) -/

/-- Model of Rust `str::split_once(sep)` on the character list:
split at the first occurrence of `sep`, dropping the separator. -/
def splitOnceChar (sep : Char) : List Char → Option (List Char × List Char)
  | [] => none
  | c :: rest =>
    if c = sep then some ([], rest)
    else (splitOnceChar sep rest).map (fun p => (c :: p.1, p.2))

/-- Model of Rust `str::rsplit_once(sep)`: split at the last occurrence of
`sep`.  Implemented by splitting the reversed list at the first occurrence. -/
def rsplitOnceChar (sep : Char) (l : List Char) : Option (List Char × List Char) :=
  (splitOnceChar sep l.reverse).map (fun p => (p.2.reverse, p.1.reverse))

/-- Rust `str::split_once` at the `String` level. -/
def splitOnceStr (sep : Char) (s : String) : Option (String × String) :=
  (splitOnceChar sep s.data).map (fun p => (⟨p.1⟩, ⟨p.2⟩))

/-- Rust `str::rsplit_once` at the `String` level. -/
def rsplitOnceStr (sep : Char) (s : String) : Option (String × String) :=
  (rsplitOnceChar sep s.data).map (fun p => (⟨p.1⟩, ⟨p.2⟩))

/-- Model of Rust `str::replace('/', ".")`: the pattern and the replacement
are single characters, so the replacement is a character map. -/
def replaceSlash (s : String) : String :=
  ⟨s.data.map (fun c => if c = '/' then '.' else c)⟩

/-- Model of `itertools` `join("/")`. -/
def joinSlash : List String → String
  | [] => ""
  | [s] => s
  | s :: rest => s ++ "/" ++ joinSlash rest

/-- ASCII lower-casing, model of Rust `str::to_ascii_lowercase`. -/
def toLowerAscii (s : String) : String :=
  ⟨s.data.map (fun c => if 'A' ≤ c ∧ c ≤ 'Z' then Char.ofNat (c.toNat + 32) else c)⟩

/-- `'/'` occurs in the string. -/
def hasSlash (s : String) : Prop := '/' ∈ s.data

instance (s : String) : Decidable (hasSlash s) := by
  unfold hasSlash; infer_instance

/-! ## Data model (`src/names.rs`, `src/mappings.rs`) -/

/-- `NamesType` from `src/names.rs`. -/
inductive NamesType
  | obfuscated
  | mojang
  | fabricIntermediary
  deriving DecidableEq, Repr

instance : Fintype NamesType where
  elems := {NamesType.obfuscated, NamesType.mojang, NamesType.fabricIntermediary}
  complete := by intro x; cases x <;> decide

/-- JVM value types, `Type` in `src/mappings.rs` (renamed: `Type` is a Lean
keyword). -/
inductive JType
  | void
  | boolean
  | byte
  | char
  | short
  | int
  | long
  | float
  | double
  | object (name : String)
  | array (elem : JType)
  deriving DecidableEq, Repr

/-- `Descriptor` from `src/mappings.rs`. -/
structure Descriptor where
  params : List JType
  return_type : JType
  deriving DecidableEq, Repr

/-- `MethodId` from `src/mappings.rs`. -/
structure MethodId where
  name : String
  descriptor : Descriptor
  deriving DecidableEq, Repr

/-- `ClassMapping` from `src/mappings.rs`.  The `methods` `HashMap` is an
association list keyed by the `from` `MethodId`. -/
structure ClassMapping where
  to_name : String
  methods : List (MethodId × MethodId)
  deriving DecidableEq, Repr

/-- `Mappings` from `src/mappings.rs`: classes indexed by the `from` name. -/
structure Mappings where
  classes : List (String × ClassMapping)
  deriving DecidableEq, Repr

/-- `BaseMapper` from `src/mappings.rs` (`from`/`to` are Lean keywords,
hence the underscores). -/
structure BaseMapper where
  from_ : NamesType
  to_ : NamesType
  version : String
  mappings : Mappings
  deriving DecidableEq, Repr

/-- First-match association-list lookup: model of `HashMap::get` (the map
invariant keeps keys unique, so first-match agrees with the hash lookup). -/
def alookup {β : Type} (k : String) : List (String × β) → Option β
  | [] => none
  | (k', v) :: rest => if k' = k then some v else alookup k rest

/-- `HashMap::get` on the per-class method table. -/
def mlookup (k : MethodId) : List (MethodId × MethodId) → Option MethodId
  | [] => none
  | (k', v) :: rest => if k' = k then some v else mlookup k rest

/-- `HashMap::insert`: overwrite the existing entry for the key, or append. -/
def insertAssoc {β : Type} (k : String) (v : β) : List (String × β) → List (String × β)
  | [] => [(k, v)]
  | (k', v') :: rest =>
    if k' = k then (k, v) :: rest else (k', v') :: insertAssoc k v rest

/-- `extract_method` from `src/mappings.rs` lines 276-296. -/
def extract_method (name : String) (descriptor : Option Descriptor) (c : ClassMapping) :
    List (String × MethodId) :=
  match descriptor with
  | some desc =>
    ((mlookup ⟨name, desc⟩ c.methods).map (fun m => (c.to_name, m))).toList
  | none =>
    c.methods.filterMap (fun p => if p.1.name = name then some (c.to_name, p.2) else none)

/-- `BaseMapper::map_class` (`src/mappings.rs` lines 238-243). -/
def BaseMapper.map_class (b : BaseMapper) (name : String) : Option String :=
  (alookup name b.mappings.classes).map (fun c => c.to_name)

/-- `BaseMapper::map_method` (`src/mappings.rs` lines 245-274). -/
def BaseMapper.map_method (b : BaseMapper) (from_class_name : String) (name : String)
    (descriptor : Option Descriptor) : List (String × MethodId) :=
  let scoped_result :=
    ((alookup from_class_name b.mappings.classes).map
      (extract_method name descriptor)).toList.flatten
  if scoped_result.isEmpty = false then scoped_result
  else
    let unscoped_result :=
      (b.mappings.classes.map Prod.snd).flatMap (extract_method name descriptor)
    if unscoped_result.length ≤ 1 then unscoped_result else []

/-! ## Abstract mapper capability (`MethodMapper` trait) -/

/-- A `MethodMapper` capability: `Frame::map_self` and `Stacktrace::map_self`
are generic over `impl MethodMapper`, modelled by this record of the two
trait methods. -/
structure MMapper where
  map_class : String → Option String
  map_method : String → String → Option Descriptor → List (String × MethodId)

/-- The `MethodMapper` impl of `BaseMapper`, as a capability record. -/
def BaseMapper.toMMapper (b : BaseMapper) : MMapper where
  map_class := b.map_class
  map_method := b.map_method

/-! ## Stack-trace data model and rewriter (`src/stacktrace.rs`) -/

/-- `Frame` from `src/stacktrace.rs` (`class` is a Lean keyword). -/
structure Frame where
  module : Option String
  class_ : String
  method : String
  file : String
  line : Option Nat
  deriving DecidableEq, Repr

/-- `Frame::map_self` (`src/stacktrace.rs` lines 71-106). -/
def Frame.map_self (f : Frame) (mapper : MMapper) : Frame :=
  let methods := mapper.map_method f.class_ f.method none
  let method :=
    if methods.isEmpty then f.method
    else joinSlash (methods.map (fun p => p.2.name))
  let mapped_file :=
    (splitOnceStr '.' f.file).bind (fun p =>
      let as_class_name : String :=
        match rsplitOnceStr '.' f.class_ with
        | some (pkg, _) => pkg ++ "." ++ p.1
        | none => p.1
      (mapper.map_class as_class_name).map (fun c =>
        (match rsplitOnceStr '.' c with
         | some (_, cls) => cls
         | none => c) ++ "." ++ p.2))
  { module := f.module
    class_ := (mapper.map_class f.class_).getD f.class_
    method := method
    file := mapped_file.getD f.file
    line := f.line }

/-- `Type::from_source_name` (`src/mappings.rs` lines 162-183), recursing on
the string length through the stripped `[]` suffix. -/
def JType.from_source_name (name : String) : JType :=
  go name.data.length name.data
where
  /-- Structurally recursive on a fuel that bounds the recursion depth: each
  recursive call strips the two-character `[]` suffix, so a fuel of the
  character count always suffices, and exhausted fuel can only be reached
  with the empty string, which is `Object("")` exactly as in the source. -/
  go : Nat → List Char → JType
    | 0, l => .object ⟨l⟩
    | fuel + 1, l =>
      match (⟨l⟩ : String) with
      | "void" => .void
      | "boolean" => .boolean
      | "byte" => .byte
      | "char" => .char
      | "short" => .short
      | "int" => .int
      | "long" => .long
      | "float" => .float
      | "double" => .double
      | _ =>
        -- `strip_suffix("[]")`: the string ends in `[]`, recurse on the stem.
        if 2 ≤ l.length ∧ l.drop (l.length - 2) = ['[', ']'] then
          .array (go fuel (l.take (l.length - 2)))
        else
          .object ⟨l⟩

/-- `Type::map_self` (`src/mappings.rs` lines 185-199), over the class-mapper
capability. -/
def JType.map_self (t : JType) (map_class : String → Option String) : JType :=
  match t with
  | .object name =>
    match map_class name with
    | some mapped_name => .object mapped_name
    | none => .object name
  | .array ty => .array (ty.map_self map_class)
  | t => t

/-- `Stacktrace` from `src/stacktrace.rs`. -/
structure Stacktrace where
  ty : JType
  message : String
  frames : List Frame
  deriving DecidableEq, Repr

/-- `Stacktrace::map_self` (`src/stacktrace.rs` lines 35-47). -/
def Stacktrace.map_self (st : Stacktrace) (mapper : MMapper) : Stacktrace where
  ty := st.ty.map_self mapper.map_class
  message := st.message
  frames := st.frames.map (fun f => f.map_self mapper)

/-! ## Spec-side descriptions of the frame file-name rewriting

Two transcriptions of the spec sentence for the `file` field, differing only
in which occurrence of `.` the file name is split at. -/

/-- The claim's description verbatim: the file is split on the LAST `.`. -/
def frame_file_spec_last (mapper : MMapper) (f : Frame) : String :=
  match rsplitOnceStr '.' f.file with
  | none => f.file
  | some (basename, ext) =>
    let candidate : String :=
      match rsplitOnceStr '.' f.class_ with
      | some (pkg, _) => pkg ++ "." ++ basename
      | none => basename
    match mapper.map_class candidate with
    | some c =>
      (match rsplitOnceStr '.' c with
       | some (_, simple) => simple
       | none => c) ++ "." ++ ext
    | none => f.file

/-- The amended description: the file is split on the FIRST `.`. -/
def frame_file_spec_first (mapper : MMapper) (f : Frame) : String :=
  match splitOnceStr '.' f.file with
  | none => f.file
  | some (basename, ext) =>
    let candidate : String :=
      match rsplitOnceStr '.' f.class_ with
      | some (pkg, _) => pkg ++ "." ++ basename
      | none => basename
    match mapper.map_class candidate with
    | some c =>
      (match rsplitOnceStr '.' c with
       | some (_, simple) => simple
       | none => c) ++ "." ++ ext
    | none => f.file

/-- Counterexample mapper for the file-split claim: maps the class `a.b`
to `q.D` and nothing else; maps no methods. -/
def cexMapper : MMapper where
  map_class := fun n => if n = "a.b" then some "q.D" else none
  map_method := fun _ _ _ => []

/-- Counterexample frame: its file name `b.x.java` contains two dots, so the
first-dot and last-dot splits disagree. -/
def cexFrame : Frame where
  module := none
  class_ := "a.C"
  method := "m"
  file := "b.x.java"
  line := none

/-! ## Spec-side description of `BaseMapper::map_method` (for claim C2) -/

/-- The spec's "entries of a class whose key equals `(m, d)` / whose key name
equals `m`" — all matching entries, paired with the owning class's
`to_name`. -/
def specClassEntries (c : ClassMapping) (m : String) (d : Option Descriptor) :
    List (String × MethodId) :=
  match d with
  | some desc =>
    c.methods.filterMap (fun p => if p.1 = ⟨m, desc⟩ then some (c.to_name, p.2) else none)
  | none =>
    c.methods.filterMap (fun p => if p.1.name = m then some (c.to_name, p.2) else none)

/-- `map_method` as the claim states it: the scoped set when non-empty,
otherwise the lookup gathered over every class, kept only when it has at
most one entry. -/
def map_method_spec (b : BaseMapper) (cls m : String) (d : Option Descriptor) :
    List (String × MethodId) :=
  let scopedSet :=
    match alookup cls b.mappings.classes with
    | some c => specClassEntries c m d
    | none => []
  if scopedSet ≠ [] then scopedSet
  else
    let unscoped := (b.mappings.classes.map Prod.snd).flatMap (fun c => specClassEntries c m d)
    if unscoped.length ≤ 1 then unscoped else []

/-- The `HashMap` invariant used by claim C2: within each class, the method
keys are pairwise distinct. -/
def BaseMapper.methodKeysNodup (b : BaseMapper) : Prop :=
  ∀ p ∈ b.mappings.classes, (p.2.methods.map Prod.fst).Nodup

/-! ## `MultiMapper` (`src/mappings.rs` lines 380-434) -/

/-- `MultiMapper` from `src/mappings.rs`. -/
structure MultiMapper where
  mappers : List BaseMapper
  deriving DecidableEq, Repr

/-- The loop body of `MultiMapper::map_class` (lines 393-405): `push_name`
threads through the mappers, `ret_name` holds the latest mapped name. -/
def MultiMapper.map_class_go : List BaseMapper → String → Option String → Option String
  | [], _, ret_name => ret_name
  | mapper :: rest, push_name, _ =>
    match mapper.map_class push_name with
    | none => none
    | some mapped_name => MultiMapper.map_class_go rest mapped_name (some mapped_name)

/-- `MultiMapper::map_class`. -/
def MultiMapper.map_class (mm : MultiMapper) (name : String) : Option String :=
  MultiMapper.map_class_go mm.mappers name none

/-- The spec's composite threading: feed the name through every mapper,
propagating "no mapping". -/
def threadClass (ms : List BaseMapper) (n : String) : Option String :=
  ms.foldl (fun acc m => acc.bind m.map_class) (some n)

/-- Every step of the chain returns a mapping (the negation of "some step
returns no mapping"). -/
def allStepsMapped : List BaseMapper → String → Bool
  | [], _ => true
  | m :: rest, n =>
    match m.map_class n with
    | none => false
    | some v => allStepsMapped rest v

/-! ## Mapping graph and composer (`src/mappings.rs` lines 21-67, 298-340) -/

/-- `MappingType` from `src/mappings.rs`. -/
inductive MappingType
  | obfToMojang
  | mojangToObf
  | obfToFabricIntermediary
  | fabricIntermediaryToObf
  deriving DecidableEq, Repr

/-- The short display form of a `NamesType` (the `derive_more::Display`
attributes in `src/names.rs`). -/
def NamesType.display : NamesType → String
  | .obfuscated => "obf"
  | .mojang => "mojang"
  | .fabricIntermediary => "fabric"

/-- The statically initialized `MAPPINGS_GRAPH` edge list
(`src/mappings.rs` lines 24-47). -/
def MAPPINGS_GRAPH_EDGES : List (NamesType × NamesType × MappingType) :=
  [ (.obfuscated, .mojang, .obfToMojang),
    (.mojang, .obfuscated, .mojangToObf),
    (.obfuscated, .fabricIntermediary, .obfToFabricIntermediary),
    (.fabricIntermediary, .obfuscated, .fabricIntermediaryToObf) ]

/-- `MAPPINGS_GRAPH.edge_weight(a, b)`. -/
def edgeWeight (a b : NamesType) : Option MappingType :=
  MAPPINGS_GRAPH_EDGES.findSome?
    (fun e => if e.1 = a ∧ e.2.1 = b then some e.2.2 else none)

/-- Successors of a node in the mapping graph. -/
def neighborsOf (n : NamesType) : List NamesType :=
  MAPPINGS_GRAPH_EDGES.filterMap (fun e => if e.1 = n then some e.2.1 else none)

/-- One breadth-first expansion step.  Paths are stored reversed (head is the
most recent node). -/
def stepFrontier (frontier : List (List NamesType)) : List (List NamesType) :=
  frontier.flatMap (fun p =>
    match p.head? with
    | none => []
    | some cur => (neighborsOf cur).map (fun nxt => nxt :: p))

/-- Level-by-level breadth-first search for the goal node. -/
def searchPaths : Nat → List (List NamesType) → NamesType → Option (List NamesType)
  | 0, _, _ => none
  | fuel + 1, frontier, goal =>
    match frontier.find? (fun p => decide (p.head? = some goal)) with
    | some p => some p.reverse
    | none => searchPaths fuel (stepFrontier frontier) goal

/-- Model of `petgraph::algo::astar(g, from, |f| f == to, |_| 1, |_| 0)` on
the 3-node mapping graph: with unit edge weights and a zero heuristic this
is a breadth-first shortest-path search, and every reachable pair in this
graph has a unique shortest path, so the search result is the `astar`
result.  When `from == to`, `astar` yields the single-node path `[from]`,
as does this search. -/
def findPath (f t : NamesType) : Option (List NamesType) :=
  searchPaths 4 [[f]] t

/-- Result of a fallible computation that may also abort: Rust `Result` plus
`assert!`/`expect` panics made explicit. -/
inductive PResult (α : Type)
  | ok (val : α)
  | error (msg : String)
  | panicked (msg : String)
  deriving DecidableEq, Repr

/-- `EitherMapper` from `src/mappings.rs`. -/
inductive EitherMapper
  | base (m : BaseMapper)
  | multi (m : MultiMapper)
  deriving DecidableEq, Repr

/-- The panic message of the inner `sanity_check_mapper`
(`src/mappings.rs` lines 310-322). -/
def sanityMsg (f t : NamesType) : String :=
  "found bad mapper in mapping graph when looking for " ++ f.display ++ " -> " ++ t.display

/-- `sanity_check_mapper` (`src/mappings.rs` lines 310-322): `assert_eq!`
on both endpoints, panicking on mismatch. -/
def sanity_check_mapper (m : BaseMapper) (f t : NamesType) : PResult BaseMapper :=
  if m.from_ = f then
    if m.to_ = t then .ok m
    else .panicked (sanityMsg f t)
  else .panicked (sanityMsg f t)

/-- The edge-loading loop of `generate_mapper` (`src/mappings.rs` lines
331-338): walk consecutive path nodes, look up the edge, load it (the
loader is a parameter, standing for the network-backed
`MappingType::load`), sanity-check it, and collect. -/
def loadChain (load : MappingType → String → Except String BaseMapper) (version : String) :
    NamesType → List NamesType → PResult (List BaseMapper)
  | _, [] => .ok []
  | prev, next :: rest =>
    match edgeWeight prev next with
    | none => .panicked "astar gave a path with no edge"
    | some mt =>
      match load mt version with
      | .error e => .error e
      | .ok m =>
        match sanity_check_mapper m prev next with
        | .ok m' =>
          match loadChain load version next rest with
          | .ok ms => .ok (m' :: ms)
          | .error e => .error e
          | .panicked msg => .panicked msg
        | .error e => .error e
        | .panicked msg => .panicked msg

/-- `generate_mapper` (`src/mappings.rs` lines 298-340).  The edge loader is
abstracted as `load`; everything else follows the source: shortest-path
search, the `assert!(path.len() >= 2)`, the single-edge base case checked
against the requested endpoints, and the composite loop. -/
def generate_mapper (load : MappingType → String → Except String BaseMapper)
    (version : String) (f t : NamesType) : PResult EitherMapper :=
  match findPath f t with
  | none => .error ("No path from " ++ f.display ++ " to " ++ t.display)
  | some path =>
    match path with
    | [] => .panicked "Path must have at least two elements"
    | [_] => .panicked "Path must have at least two elements"
    | a :: b :: rest =>
      match rest with
      | [] =>
        match edgeWeight a b with
        | none => .panicked "astar gave a path with no edge"
        | some mt =>
          match load mt version with
          | .error e => .error e
          | .ok m =>
            match sanity_check_mapper m f t with
            | .ok m' => .ok (.base m')
            | .error e => .error e
            | .panicked msg => .panicked msg
      | _ :: _ =>
        match loadChain load version a (b :: rest) with
        | .ok ms => .ok (.multi ⟨ms⟩)
        | .error e => .error e
        | .panicked msg => .panicked msg

/-- The endpoints of the loaded mappers match the consecutive nodes of the
path tail they were loaded for. -/
def EndpointsMatch : NamesType → List NamesType → List BaseMapper → Prop
  | _, [], [] => True
  | prev, next :: rest, m :: ms => m.from_ = prev ∧ m.to_ = next ∧ EndpointsMatch next rest ms
  | _, [], _ :: _ => False
  | _, _ :: _, [] => False

/-! ## Download cache (`src/mappings/cache.rs`)

The filesystem and the network are modelled as explicit state: the single
cache entry addressed by the download's `(kind, hash)` is an optional byte
string, and the source URL is an oracle giving the bytes (or the network
error) of each successive fetch.  The two digest algorithms are abstract
functions producing the lowercase-hex digest, exactly the shape of
`format!("{:x}", digest.finalize())`. -/

/-- `HashCode` from `src/mappings/cache.rs`. -/
inductive HashCode
  | sha1 (hex : String)
  | sha512 (hex : String)
  deriving DecidableEq, Repr

/-- `HashCode::value`. -/
def HashCode.value : HashCode → String
  | .sha1 v => v
  | .sha512 v => v

/-- `MappingDownload` from `src/mappings/cache.rs`. -/
structure MappingDownload where
  kind : String
  source : String
  hash : HashCode
  size : Option Nat
  deriving DecidableEq, Repr

/-- The I/O environment of `load_mappings`: the digest algorithms (abstract,
returning lowercase hex) and the download oracle for the source URL. -/
structure CacheEnv where
  sha1 : List Nat → String
  sha512 : List Nat → String
  download : Nat → Except String (List Nat)

/-- The digest declared by the hash code, applied to the content. -/
def hashOf (env : CacheEnv) (hc : HashCode) (content : List Nat) : String :=
  match hc with
  | .sha1 _ => env.sha1 content
  | .sha512 _ => env.sha512 content

/-- `HashCode::verify` (`src/mappings/cache.rs` lines 45-69): compare the
computed lowercase-hex digest against the ASCII-lowercased expected hex. -/
def HashCode.verify (env : CacheEnv) (hc : HashCode) (content : List Nat) :
    Except String Unit :=
  let hash := hashOf env hc content
  if hash = toLowerAscii hc.value then .ok ()
  else .error ("Mappings file had hash " ++ hash ++ ", expected " ++ hc.value)

/-- `validate_mappings` (`src/mappings/cache.rs` lines 149-164): size check
when a size is declared, then the hash check over the contents. -/
def validate_mappings (env : CacheEnv) (dl : MappingDownload) (contents : List Nat) :
    Except String Unit :=
  let size := contents.length
  match dl.size with
  | some expect_size =>
    if size ≠ expect_size then
      .error ("Mappings file was " ++ toString size ++ " bytes, expected " ++
        toString expect_size)
    else HashCode.verify env dl.hash contents
  | none => HashCode.verify env dl.hash contents

/-- An open file: its byte contents and the read position. -/
structure FileHandle where
  contents : List Nat
  pos : Nat
  deriving DecidableEq, Repr

/-- The mutable world of `load_mappings`: the cache entry for this download,
and how many fetches of the source have happened. -/
structure CacheState where
  cacheFile : Option (List Nat)
  fetchCount : Nat
  deriving DecidableEq, Repr

/-- Outcome of `load_mappings`: an open file plus the final world, a hard
I/O/network error propagated by `?`, or the give-up error carrying the
collected validation failures. -/
inductive LoadOutcome
  | ok (file : FileHandle) (st : CacheState)
  | hardError (msg : String)
  | failed (failures : List String)
  deriving DecidableEq, Repr

/-- The open-or-download step of one attempt (`src/mappings/cache.rs`
lines 81-122): use the cached file if present, otherwise fetch the source
into the cache and seek to the start. -/
def openOrFetch (env : CacheEnv) (st : CacheState) : Except String (List Nat × CacheState) :=
  match st.cacheFile with
  | some contents => .ok (contents, st)
  | none =>
    match env.download st.fetchCount with
    | .error e => .error e
    | .ok bytes => .ok (bytes, { cacheFile := some bytes, fetchCount := st.fetchCount + 1 })

/-- The retry loop of `load_mappings` (`src/mappings/cache.rs` lines
79-138), counting down the remaining attempts: open or download, validate;
on success seek to start and return the file; on validation failure delete
the cache entry, record the failure (with the source attached) and retry;
with no attempts left give up with the collected failures. -/
def load_attempts (env : CacheEnv) (dl : MappingDownload) :
    Nat → CacheState → List String → LoadOutcome
  | 0, _, failures => .failed failures
  | n + 1, st, failures =>
    match openOrFetch env st with
    | .error e => .hardError e
    | .ok (contents, st') =>
      match validate_mappings env dl contents with
      | .ok _ => .ok ⟨contents, 0⟩ st'
      | .error v =>
        load_attempts env dl n { st' with cacheFile := none }
          (failures ++ [v ++ "; Source: " ++ dl.source])

/-- `load_mappings` (`src/mappings/cache.rs` lines 72-147): 5 attempts,
starting with no recorded failures. -/
def load_mappings (env : CacheEnv) (dl : MappingDownload) (st : CacheState) : LoadOutcome :=
  load_attempts env dl 5 st []

/-! ## Tiny-v2 parse results and normalization (`src/mappings/tiny.rs`,
`src/mappings/raw.rs`, `src/mappings/fabric_intermediary.rs`)

The tiny-v2 parser's output values are built by the `map` closures of
`class_section` and `descriptor_type`; those closures are embedded as
builder functions over the raw (pre-normalization) strings the combinators
extract, so a parsed `TinyContent` is the image of `buildTinyContent` over
some raw input. -/

/-- `TinyMapping` from `src/mappings/tiny.rs`. -/
structure TinyMapping where
  primary_name : String
  mapped_names : List (Option String)
  deriving DecidableEq, Repr

/-- `TinyMethod` from `src/mappings/tiny.rs`. -/
structure TinyMethod where
  primary_desc : Descriptor
  mapping : TinyMapping
  deriving DecidableEq, Repr

/-- `TinyClass` from `src/mappings/tiny.rs`. -/
structure TinyClass where
  mapping : TinyMapping
  methods : List TinyMethod
  deriving DecidableEq, Repr

/-- `TinyContent` from `src/mappings/tiny.rs`. -/
structure TinyContent where
  classes : List TinyClass
  deriving DecidableEq, Repr

/-- A descriptor type token as read off the wire, before slash
normalization: `obj` holds the slash-separated internal name between `L`
and `;`. -/
inductive RawTy
  | void
  | boolean
  | byte
  | short
  | char
  | int
  | long
  | float
  | double
  | obj (internal : String)
  | arr (t : RawTy)
  deriving DecidableEq, Repr

/-- The value construction of `descriptor_type` (`src/mappings/tiny.rs`
lines 205-226): object internal names have their slashes replaced by dots. -/
def RawTy.build : RawTy → JType
  | .void => .void
  | .boolean => .boolean
  | .byte => .byte
  | .short => .short
  | .char => .char
  | .int => .int
  | .long => .long
  | .float => .float
  | .double => .double
  | .obj s => .object (replaceSlash s)
  | .arr t => .array t.build

/-- The value construction of `descriptor` (`src/mappings/tiny.rs`
lines 194-203). -/
def buildDescriptor (params : List RawTy) (ret : RawTy) : Descriptor :=
  ⟨params.map RawTy.build, ret.build⟩

/-- The raw fields a `method_section` extracts before building its value. -/
structure RawMethodSec where
  params : List RawTy
  ret : RawTy
  primary_name : String
  mapped_names : List (Option String)
  deriving DecidableEq, Repr

/-- The raw fields a `class_section` extracts before building its value. -/
structure RawClassSec where
  name_a : String
  mapped_names : List (Option String)
  methods : List RawMethodSec
  deriving DecidableEq, Repr

/-- The value construction of `method_section` (`src/mappings/tiny.rs`
lines 183-191): method names are kept verbatim. -/
def buildMethodSection (r : RawMethodSec) : TinyMethod where
  primary_desc := buildDescriptor r.params r.ret
  mapping := ⟨r.primary_name, r.mapped_names⟩

/-- The value construction of `class_section` (`src/mappings/tiny.rs`
lines 144-153): the primary and every present mapped class name have their
slashes replaced by dots. -/
def buildClassSection (r : RawClassSec) : TinyClass where
  mapping :=
    ⟨replaceSlash r.name_a, r.mapped_names.map (fun n => n.map replaceSlash)⟩
  methods := r.methods.map buildMethodSection

/-- A parsed tiny-v2 body is the image of the section builders over the raw
extracted fields. -/
def buildTinyContent (rs : List RawClassSec) : TinyContent :=
  ⟨rs.map buildClassSection⟩

/-- `RawMethodMapping` from `src/mappings/raw.rs`. -/
structure RawMethodMapping where
  descriptor : Descriptor
  mapping : String × String
  deriving DecidableEq, Repr

/-- `RawClassMapping` from `src/mappings/raw.rs`, with the methods iterable
materialized. -/
structure RawClassMapping where
  mapping : String × String
  methods : List RawMethodMapping
  deriving DecidableEq, Repr

/-- `mapped_names.into_iter().next().expect("missing first mapped name")`
(`src/mappings/fabric_intermediary.rs`): `none` is the panic on an empty
list, `some x` is the first element (itself an option which `?` filters). -/
def firstMapped (l : List (Option String)) : Option (Option String) :=
  match l with
  | [] => none
  | x :: _ => some x

/-- One method of the fabric-intermediary `filter_map` (lines 40-52):
`none` = panic, `some none` = method filtered out, `some (some r)` = kept. -/
def tinyMethodToRaw (m : TinyMethod) : Option (Option RawMethodMapping) :=
  match firstMapped m.mapping.mapped_names with
  | none => none
  | some none => some none
  | some (some n) => some (some ⟨m.primary_desc, (m.mapping.primary_name, n)⟩)

/-- The method list of one class under the fabric-intermediary `filter_map`,
with panics propagated. -/
def tinyMethodsToRaw : List TinyMethod → Option (List RawMethodMapping)
  | [] => some []
  | m :: rest =>
    match tinyMethodToRaw m with
    | none => none
    | some none => tinyMethodsToRaw rest
    | some (some r) => (tinyMethodsToRaw rest).map (fun rs => r :: rs)

/-- One class of the fabric-intermediary `filter_map` (lines 30-54). -/
def tinyClassToRaw (c : TinyClass) : Option (Option RawClassMapping) :=
  match firstMapped c.mapping.mapped_names with
  | none => none
  | some none => some none
  | some (some n) =>
    match tinyMethodsToRaw c.methods with
    | none => none
    | some ms => some (some ⟨(c.mapping.primary_name, n), ms⟩)

/-- The class list under the fabric-intermediary `filter_map`, with panics
propagated. -/
def tinyClassesToRaw : List TinyClass → Option (List RawClassMapping)
  | [] => some []
  | c :: rest =>
    match tinyClassToRaw c with
    | none => none
    | some none => tinyClassesToRaw rest
    | some (some r) => (tinyClassesToRaw rest).map (fun rs => r :: rs)

/-- `do_flip` from `src/mappings/raw.rs` lines 86-92. -/
def do_flip {α : Type} (should_flip : Bool) (p : α × α) : α × α :=
  if should_flip then (p.2, p.1) else p

/-- `Descriptor::map_self` (`src/mappings.rs` lines 122-133) over a
class-mapper function. -/
def Descriptor.map_self (d : Descriptor) (map_class : String → Option String) : Descriptor :=
  ⟨d.params.map (fun t => t.map_self map_class), d.return_type.map_self map_class⟩

/-- The first pass of `convert_mappings` (`src/mappings/raw.rs` lines
34-44): accumulate the primary-to-secondary class-name table. -/
def buildClassTable (mappings : List RawClassMapping) : List (String × String) :=
  mappings.foldl (fun acc c => insertAssoc c.mapping.1 c.mapping.2 acc) []

/-- `HashMap::insert` on the per-class method table. -/
def insertMethod (k v : MethodId) : List (MethodId × MethodId) → List (MethodId × MethodId)
  | [] => [(k, v)]
  | (k', v') :: rest =>
    if k' = k then (k, v) :: rest else (k', v') :: insertMethod k v rest

/-- `convert_mappings` (`src/mappings/raw.rs` lines 18-84): build the class
table, then rebuild every class mapping, remapping each method's value
descriptor through the table and flipping when requested. -/
def convert_mappings (primary_nt secondary_nt : NamesType) (version : String)
    (mappings : List RawClassMapping) (should_flip : Bool) : BaseMapper :=
  let class_mappings := buildClassTable mappings
  let lookupFn := fun n => alookup n class_mappings
  let result := mappings.foldl (fun acc class_ =>
    let ft := do_flip should_flip class_.mapping
    let methods := class_.methods.foldl (fun macc method =>
      let first_id : MethodId := ⟨method.mapping.1, method.descriptor⟩
      let second_id : MethodId := ⟨method.mapping.2, method.descriptor.map_self lookupFn⟩
      let kv := do_flip should_flip (first_id, second_id)
      insertMethod kv.1 kv.2 macc) []
    insertAssoc ft.1 ⟨ft.2, methods⟩ acc) []
  let ft := do_flip should_flip (primary_nt, secondary_nt)
  { from_ := ft.1, to_ := ft.2, version := version, mappings := ⟨result⟩ }

/-- The pure tail of `fabric_intermediary::load` (lines 26-56): convert the
parsed tiny content into a `BaseMapper`, `none` when the conversion panics. -/
def fabric_load_pure (content : TinyContent) (version : String) (obf_to_fabric : Bool) :
    Option BaseMapper :=
  (tinyClassesToRaw content.classes).map (fun raw =>
    convert_mappings .obfuscated .fabricIntermediary version raw (!obf_to_fabric))

/-- No `/` in any object type of a JVM type. -/
def JType.slashFree : JType → Bool
  | .object n => !(n.data.contains '/')
  | .array t => t.slashFree
  | _ => true

/-- No `/` anywhere in a descriptor. -/
def Descriptor.slashFree (d : Descriptor) : Bool :=
  d.params.all JType.slashFree && d.return_type.slashFree

/-- No `/` in the string. -/
def strSlashFree (s : String) : Bool := !(s.data.contains '/')

/-- No class name stored anywhere in the mapper contains `/`: source class
keys, target class names, and the object types inside both method-id
descriptors. -/
def BaseMapper.classNamesSlashFree (b : BaseMapper) : Bool :=
  b.mappings.classes.all (fun p =>
    strSlashFree p.1 && strSlashFree p.2.to_name &&
    p.2.methods.all (fun m => m.1.descriptor.slashFree && m.2.descriptor.slashFree))

/-! ## Stack-trace parser (`src/stacktrace.rs` lines 108-173, `src/parsing.rs`)

The chumsky combinator grammar is embedded as recursive-descent functions on
the character list; failure is `none`, and the functional state gives the
same backtracking as the combinators' `or_not`/`repeated`.  Character
classes follow `src/parsing.rs` (they agree with the Rust Unicode classes on
the ASCII inputs of the concrete scenarios). -/

/-- `is_java_identifier_part` from `src/parsing.rs`. -/
def isJavaIdentifierPart (c : Char) : Bool :=
  c.isDigit || c.isAlpha || c = '$' || c = '_'

/-- The character class of `jtype()` from `src/parsing.rs`. -/
def isJTypeChar (c : Char) : Bool :=
  isJavaIdentifierPart c || c = '.' || c = '[' || c = ']' || c = '-'

/-- chumsky `Character::is_inline_whitespace` (whitespace except newlines). -/
def isInlineWs (c : Char) : Bool := c = ' ' || c = '\t'

/-- `just(pat)`: consume the literal, or fail. -/
def pStr (pat : String) (input : List Char) : Option (Unit × List Char) :=
  if pat.data.isPrefixOf input then some ((), input.drop pat.data.length) else none

/-- `jtype()`: a maximal non-empty run of jtype characters. -/
def pJType (input : List Char) : Option (String × List Char) :=
  let tk := input.takeWhile isJTypeChar
  if tk.isEmpty then none else some (⟨tk⟩, input.dropWhile isJTypeChar)

/-- `eol()` from `src/parsing.rs`: `\n` or `\r\n`, in that order. -/
def pEol (input : List Char) : Option (Unit × List Char) :=
  match pStr "\n" input with
  | some r => some r
  | none => pStr "\r\n" input

/-- `eol().not().repeated().collect()`: the message characters up to (not
including) the first end-of-line. -/
def collectUntilEol : List Char → List Char × List Char
  | [] => ([], [])
  | c :: rest =>
    if c = '\n' then ([], c :: rest)
    else if c = '\r' ∧ rest.head? = some '\n' then ([], c :: rest)
    else
      let p := collectUntilEol rest
      (c :: p.1, p.2)

/-- The numeric value of a decimal digit run. -/
def digitsToNat (ds : List Char) : Nat :=
  ds.foldl (fun acc c => acc * 10 + (c.toNat - '0'.toNat)) 0

/-- `u32_digits()` from `src/parsing.rs`: a non-empty digit run parsed as
`u32` (values not below `2^32` fail the parse, as `str::parse::<u32>`
does). -/
def pU32 (input : List Char) : Option (Nat × List Char) :=
  let ds := input.takeWhile Char.isDigit
  if ds.isEmpty then none
  else
    let n := digitsToNat ds
    if n < 2 ^ 32 then some (n, input.dropWhile Char.isDigit) else none

/-- `frame()` (`src/stacktrace.rs` lines 129-173). -/
def parseFrame (input : List Char) : Option (Frame × List Char) := do
  let input := input.dropWhile isInlineWs
  let (_, input) ← pStr "at " input
  -- `jtype().then_ignore(just("/")).or_not()`
  let moduleRes : Option (String × List Char) := do
    let (m, rest) ← pJType input
    let (_, rest) ← pStr "/" rest
    pure (m, rest)
  let (module, input) :=
    match moduleRes with
    | some (m, rest) => (some m, rest)
    | none => (none, input)
  -- class+method read as one blob, split at the last '.'
  let (class_method, input) ← pJType input
  let (cls, method) ← rsplitOnceStr '.' class_method
  let (_, input) ← pStr "(" input
  let (file, input) ← pJType input
  -- `just(":").ignore_then(u32_digits()).or_not()`
  let lineRes : Option (Nat × List Char) := do
    let (_, rest) ← pStr ":" input
    pU32 rest
  let (line, input) :=
    match lineRes with
    | some (n, rest) => (some n, rest)
    | none => (none, input)
  let (_, input) ← pStr ")" input
  -- `just("]").not().repeated().delimited_by(just(" ~["), just("]")).or_not()`
  let decoRes : Option (List Char) := do
    let (_, rest) ← pStr " ~[" input
    let rest := rest.dropWhile (fun c => c ≠ ']')
    let (_, rest) ← pStr "]" rest
    pure rest
  let input :=
    match decoRes with
    | some rest => rest
    | none => input
  let (_, input) ← pEol input
  pure (⟨module, cls, method, file, line⟩, input)

/-- `frame().repeated()`: greedy, stopping at the first failure; the fuel is
an upper bound on the repetitions (each frame consumes input). -/
def parseFrames : Nat → List Char → List Frame × List Char
  | 0, input => ([], input)
  | fuel + 1, input =>
    match parseFrame input with
    | none => ([], input)
    | some (f, rest) =>
      let p := parseFrames fuel rest
      (f :: p.1, p.2)

/-- `stacktrace()` followed by `parse_stacktrace`'s success condition
(`src/stacktrace.rs` lines 108-127): type, `": "`, message, end-of-line,
frames, trailing whitespace, end of input. -/
def parseStacktraceFn (input : String) : Option Stacktrace := do
  let l := input.data
  let (tyName, rest) ← pJType l
  let ty := JType.from_source_name tyName
  let (_, rest) ← pStr ": " rest
  let mp := collectUntilEol rest
  let (_, rest) ← pEol mp.2
  let fp := parseFrames (rest.length + 1) rest
  let rest := fp.2.dropWhile Char.isWhitespace
  match rest with
  | [] => pure ⟨ty, ⟨mp.1⟩, fp.1⟩
  | _ => none

/-! ## Printing (`Display` impls in `src/stacktrace.rs` and
`src/mappings.rs`) -/

/-- The `derive_more::Display` of `Type` (`src/mappings.rs` lines 135-160). -/
def JType.display : JType → String
  | .void => "void"
  | .boolean => "boolean"
  | .byte => "byte"
  | .char => "char"
  | .short => "short"
  | .int => "int"
  | .long => "long"
  | .float => "float"
  | .double => "double"
  | .object name => name
  | .array t => t.display ++ "[]"

/-- `Display for Frame` (`src/stacktrace.rs` lines 58-69). -/
def Frame.display (f : Frame) : String :=
  (match f.module with
   | some m => m ++ "/"
   | none => "") ++
  f.class_ ++ "." ++ f.method ++ "(" ++ f.file ++
  (match f.line with
   | some l => ":" ++ toString l
   | none => "") ++ ")"

/-- `Display for Stacktrace` (`src/stacktrace.rs` lines 25-33). -/
def Stacktrace.display (st : Stacktrace) : String :=
  st.ty.display ++ ": " ++ st.message ++ "\n" ++
  String.join (st.frames.map (fun f => "\tat " ++ f.display ++ "\n"))

/-! ## Concrete scenario data -/

/-- Scenario S1's standard input. -/
def s1Input : String := "java.lang.NullPointerException: oops\n\tat a.b.C.d(C.java:42)\n"

/-- Scenario S1's mapper: identity on class `a.b.C`, no method mappings. -/
def s1Mapper : MMapper where
  map_class := fun n => if n = "a.b.C" then some "a.b.C" else none
  map_method := fun _ _ _ => []

/-- A cache environment whose digests never match the declared hash. -/
def envAlwaysBad : CacheEnv := ⟨fun _ => "00", fun _ => "00", fun _ => .ok []⟩

/-- A download whose declared hash is unattainable under `envAlwaysBad`. -/
def dlBad : MappingDownload := ⟨"k", "src", .sha1 "ff", none⟩

/-- A cache environment agreeing with `dlGood`. -/
def envGood : CacheEnv := ⟨fun _ => "ab", fun _ => "ab", fun _ => .ok [7]⟩

/-- A download validated by `envGood` on the one-byte content `[7]`. -/
def dlGood : MappingDownload := ⟨"mojang", "url", .sha1 "AB", some 1⟩

/-! # Theorems -/

/-! ## Claim C1: the frame file rewriting -/

theorem frame_map_self_file (mapper : MMapper) (f : Frame) :
    (f.map_self mapper).file =
      ((splitOnceStr '.' f.file).bind (fun p =>
        (mapper.map_class
            (match rsplitOnceStr '.' f.class_ with
             | some (pkg, _) => pkg ++ "." ++ p.1
             | none => p.1)).map (fun c =>
          (match rsplitOnceStr '.' c with
           | some (_, cls) => cls
           | none => c) ++ "." ++ p.2))).getD f.file := rfl

/-- Claim C1 (corrected): for every frame and mapper, the rewritten file is
the spec's reconstruction applied to the split of the file at the FIRST
`.` — split into `(basename, ext)`, rebuild the candidate class under the
same package, consult `map_class`, re-attach the extension on success, and
keep the original file otherwise. -/
theorem c1_file_reconstruction (mapper : MMapper) (f : Frame) :
    (f.map_self mapper).file = frame_file_spec_first mapper f := by
  rw [frame_map_self_file]
  unfold frame_file_spec_first
  cases hs : splitOnceStr '.' f.file with
  | none => rfl
  | some p =>
    obtain ⟨basename, ext⟩ := p
    rw [Option.some_bind]
    cases hm : mapper.map_class
        (match rsplitOnceStr '.' f.class_ with
         | some (pkg, _) => pkg ++ "." ++ basename
         | none => basename) with
    | none => simp [hm]
    | some c => simp [hm]

/-- Claim C1 as frozen is false: with the two-dot file name `b.x.java` the
code (which splits at the first `.`) and the claim's last-dot split
disagree on a concrete frame and mapper. -/
theorem c1_counterexample :
    (cexFrame.map_self cexMapper).file = "D.x.java" ∧
    frame_file_spec_last cexMapper cexFrame = "b.x.java" ∧
    ("D.x.java" : String) ≠ "b.x.java" :=
  ⟨rfl, rfl, by decide⟩

/-! ## Claim C6: multi-result method formatting -/

/-- Claim C6: when the mapper returns two or more candidates for a frame's
method, the rewritten method field is exactly the candidate names joined by
`/` in candidate order; when it returns none, the original method is
kept. -/
theorem c6_multi_result_formatting (mapper : MMapper) (f : Frame) :
    (2 ≤ (mapper.map_method f.class_ f.method none).length →
      (f.map_self mapper).method =
        joinSlash ((mapper.map_method f.class_ f.method none).map (fun p => p.2.name))) ∧
    ((mapper.map_method f.class_ f.method none) = [] →
      (f.map_self mapper).method = f.method) := by
  constructor
  · intro h2
    show (if (mapper.map_method f.class_ f.method none).isEmpty then f.method
          else joinSlash ((mapper.map_method f.class_ f.method none).map (fun p => p.2.name))) = _
    have : (mapper.map_method f.class_ f.method none).isEmpty = false := by
      cases hm : mapper.map_method f.class_ f.method none with
      | nil => rw [hm] at h2; simp at h2
      | cons a l => rfl
    rw [this]
    simp
  · intro h0
    show (if (mapper.map_method f.class_ f.method none).isEmpty then f.method
          else joinSlash ((mapper.map_method f.class_ f.method none).map (fun p => p.2.name))) = _
    rw [h0]
    rfl

theorem c6_witness :
    (2 ≤ ((MMapper.mk (fun _ => none)
        (fun _ _ _ => [("X", ⟨"p", ⟨[], .void⟩⟩), ("Y", ⟨"q", ⟨[], .void⟩⟩)])).map_method
          "C" "m" none).length →
      ((Frame.mk none "C" "m" "F.java" none).map_self
          (MMapper.mk (fun _ => none)
            (fun _ _ _ => [("X", ⟨"p", ⟨[], .void⟩⟩), ("Y", ⟨"q", ⟨[], .void⟩⟩)]))).method =
        joinSlash ((((MMapper.mk (fun _ => none)
            (fun _ _ _ => [("X", ⟨"p", ⟨[], .void⟩⟩), ("Y", ⟨"q", ⟨[], .void⟩⟩)])).map_method
              "C" "m" none).map (fun p => p.2.name)))) ∧
    (((MMapper.mk (fun _ => none) (fun _ _ _ => [])).map_method "C" "m" none) = [] →
      ((Frame.mk none "C" "m" "F.java" none).map_self
          (MMapper.mk (fun _ => none) (fun _ _ _ => []))).method = "m") :=
  ⟨fun h => ((c6_multi_result_formatting _ _).1 h),
   fun h => ((c6_multi_result_formatting _ _).2 h)⟩

/-! ## Claim C7: composite class mapping -/

theorem threadClass_none_absorb (ms : List BaseMapper) :
    ms.foldl (fun acc m => acc.bind m.map_class) none = none := by
  induction ms with
  | nil => rfl
  | cons m rest ih => simpa using ih

theorem threadClass_cons (m : BaseMapper) (rest : List BaseMapper) (n : String) :
    threadClass (m :: rest) n =
      rest.foldl (fun acc m => acc.bind m.map_class) (m.map_class n) := by
  unfold threadClass
  rw [List.foldl_cons]
  rfl

theorem map_class_go_eq_threadClass :
    ∀ (ms : List BaseMapper), ms ≠ [] → ∀ (n : String) (v : Option String),
      MultiMapper.map_class_go ms n v = threadClass ms n := by
  intro ms
  induction ms with
  | nil => intro h; exact absurd rfl h
  | cons m rest ih =>
    intro _ n v
    show (match m.map_class n with
          | none => none
          | some w => MultiMapper.map_class_go rest w (some w)) = threadClass (m :: rest) n
    rw [threadClass_cons]
    cases hm : m.map_class n with
    | none => exact (threadClass_none_absorb rest).symm
    | some w =>
      cases rest with
      | nil => rfl
      | cons r rs => exact ih (by simp) w (some w)

theorem threadClass_none_iff :
    ∀ (ms : List BaseMapper) (n : String),
      threadClass ms n = none ↔ allStepsMapped ms n = false := by
  intro ms
  induction ms with
  | nil => intro n; simp [threadClass, allStepsMapped]
  | cons m rest ih =>
    intro n
    rw [threadClass_cons]
    show _ ↔ (match m.map_class n with
              | none => false
              | some v => allStepsMapped rest v) = false
    cases hm : m.map_class n with
    | none =>
      rw [threadClass_none_absorb rest]
      simp
    | some w => exact ih w

/-- Claim C7: for a composite of at least one base mapper, `map_class`
threads the name through each base mapper in order (the folded
composition), and the result is `none` exactly when some step of the chain
returns no mapping. -/
theorem c7_composite_map_class (ms : List BaseMapper) (hne : ms ≠ []) (n : String) :
    (MultiMapper.mk ms).map_class n = threadClass ms n ∧
    ((MultiMapper.mk ms).map_class n = none ↔ allStepsMapped ms n = false) := by
  have heq : (MultiMapper.mk ms).map_class n = threadClass ms n :=
    map_class_go_eq_threadClass ms hne n none
  exact ⟨heq, heq ▸ threadClass_none_iff ms n⟩

theorem c7_witness :
    ((MultiMapper.mk [BaseMapper.mk .obfuscated .mojang "1" ⟨[("a", ⟨"b", []⟩)]⟩]).map_class "a" =
        threadClass [BaseMapper.mk .obfuscated .mojang "1" ⟨[("a", ⟨"b", []⟩)]⟩] "a" ∧
      ((MultiMapper.mk [BaseMapper.mk .obfuscated .mojang "1" ⟨[("a", ⟨"b", []⟩)]⟩]).map_class "a" =
          none ↔
        allStepsMapped [BaseMapper.mk .obfuscated .mojang "1" ⟨[("a", ⟨"b", []⟩)]⟩] "a" = false)) :=
  c7_composite_map_class _ (by simp) "a"

/-! ## Claim C2: `BaseMapper::map_method` semantics -/

theorem alookup_mem {β : Type} (k : String) :
    ∀ (l : List (String × β)) (v : β), alookup k l = some v → (k, v) ∈ l := by
  intro l
  induction l with
  | nil => intro v h; exact absurd h (by simp [alookup])
  | cons p rest ih =>
    intro v h
    obtain ⟨k', v'⟩ := p
    by_cases hk : k' = k
    · subst hk
      unfold alookup at h
      rw [if_pos rfl] at h
      cases h
      exact List.mem_cons_self _ _
    · unfold alookup at h
      rw [if_neg hk] at h
      exact List.mem_cons_of_mem _ (ih v h)

theorem filterMap_keymiss (key : MethodId) (to_name : String) :
    ∀ (ms : List (MethodId × MethodId)), key ∉ ms.map Prod.fst →
      ms.filterMap (fun p => if p.1 = key then some (to_name, p.2) else none) = [] := by
  intro ms
  induction ms with
  | nil => intro _; rfl
  | cons p rest ih =>
    intro h
    rw [List.map_cons, List.mem_cons] at h
    push_neg at h
    rw [List.filterMap_cons, if_neg (fun hq => h.1 hq.symm)]
    exact ih h.2

theorem filterMap_eq_mlookup (key : MethodId) (to_name : String) :
    ∀ (ms : List (MethodId × MethodId)), (ms.map Prod.fst).Nodup →
      ms.filterMap (fun p => if p.1 = key then some (to_name, p.2) else none) =
        ((mlookup key ms).map (fun m => (to_name, m))).toList := by
  intro ms
  induction ms with
  | nil => intro _; rfl
  | cons p rest ih =>
    intro hnd
    obtain ⟨k, v⟩ := p
    rw [List.map_cons, List.nodup_cons] at hnd
    by_cases hk : k = key
    · subst hk
      rw [List.filterMap_cons, if_pos rfl]
      rw [filterMap_keymiss k to_name rest hnd.1]
      show _ = ((if k = k then some v else mlookup k rest).map _).toList
      rw [if_pos rfl]
      rfl
    · rw [List.filterMap_cons, if_neg hk]
      show _ = ((if k = key then some v else mlookup key rest).map _).toList
      rw [if_neg hk]
      exact ih hnd.2

theorem extract_eq_spec (m : String) (d : Option Descriptor) (c : ClassMapping)
    (h : (c.methods.map Prod.fst).Nodup) :
    extract_method m d c = specClassEntries c m d := by
  cases d with
  | none => rfl
  | some desc =>
    unfold extract_method specClassEntries
    exact (filterMap_eq_mlookup ⟨m, desc⟩ c.to_name c.methods h).symm

theorem flatMap_congr_on {α β : Type} (f g : α → List β) :
    ∀ (l : List α), (∀ x ∈ l, f x = g x) → l.flatMap f = l.flatMap g := by
  intro l
  induction l with
  | nil => intro _; rfl
  | cons a rest ih =>
    intro h
    rw [List.flatMap_cons, List.flatMap_cons, h a (List.mem_cons_self _ _),
      ih (fun x hx => h x (List.mem_cons_of_mem _ hx))]

/-- Claim C2: for every well-formed `BaseMapper` (method keys unique within
each class, the `HashMap` invariant), `map_method` is exactly the claim's
description: the scoped entries of the class when non-empty, otherwise the
same lookup over every class, returned only when it has at most one entry,
an ambiguous unscoped result yielding the empty list. -/
theorem c2_map_method_semantics (b : BaseMapper) (hwf : b.methodKeysNodup)
    (cls m : String) (d : Option Descriptor) :
    b.map_method cls m d = map_method_spec b cls m d := by
  unfold BaseMapper.map_method map_method_spec
  have hun : (b.mappings.classes.map Prod.snd).flatMap (extract_method m d) =
      (b.mappings.classes.map Prod.snd).flatMap (fun c => specClassEntries c m d) := by
    apply flatMap_congr_on
    intro c hc
    obtain ⟨p, hp, hpc⟩ := List.mem_map.1 hc
    exact hpc ▸ extract_eq_spec m d p.2 (hwf p hp)
  cases hcl : alookup cls b.mappings.classes with
  | none =>
    simp only [hcl, Option.map_none', Option.toList_none, List.flatten_nil]
    rw [hun]
    simp
  | some c =>
    have hnd := hwf _ (alookup_mem cls b.mappings.classes c hcl)
    have hsc : extract_method m d c = specClassEntries c m d := extract_eq_spec m d c hnd
    simp only [hcl, Option.map_some', Option.toList_some, List.flatten_cons,
      List.flatten_nil, List.append_nil, hsc]
    by_cases hemp : specClassEntries c m d = []
    · rw [hemp]
      simp only [List.isEmpty_nil, ne_eq, not_true_eq_false, if_false]
      show (if (true : Bool) = false then _ else _) = _
      rw [if_neg (by simp)]
      rw [hun]
    · rw [if_pos hemp]
      have : (specClassEntries c m d).isEmpty = false := by
        cases hq : specClassEntries c m d with
        | nil => exact absurd hq hemp
        | cons a l => rfl
      rw [this]
      rfl

theorem c2_witness :
    (BaseMapper.mk .obfuscated .mojang "1"
        ⟨[("C", ⟨"D", [(⟨"m", ⟨[], .void⟩⟩, ⟨"n", ⟨[], .void⟩⟩)]⟩)]⟩).map_method "C" "m" none =
      map_method_spec
        (BaseMapper.mk .obfuscated .mojang "1"
          ⟨[("C", ⟨"D", [(⟨"m", ⟨[], .void⟩⟩, ⟨"n", ⟨[], .void⟩⟩)]⟩)]⟩) "C" "m" none :=
  c2_map_method_semantics _ (by unfold BaseMapper.methodKeysNodup; decide) "C" "m" none

/-! ## Claim C3: composer adjacency and sanity aborts -/

theorem findPath_shape :
    ∀ f t : NamesType,
      ((findPath f t).all
        (fun p => p.head? == some f && p.getLast? == some t)) = true := by
  decide

theorem loadChain_ok (load : MappingType → String → Except String BaseMapper)
    (version : String) :
    ∀ (nodes : List NamesType) (prev : NamesType) (ms : List BaseMapper),
      loadChain load version prev nodes = .ok ms → EndpointsMatch prev nodes ms := by
  intro nodes
  induction nodes with
  | nil =>
    intro prev ms h
    unfold loadChain at h
    cases h
    trivial
  | cons next rest ih =>
    intro prev ms h
    unfold loadChain at h
    cases hew : edgeWeight prev next with
    | none => simp only [hew] at h; exact PResult.noConfusion h
    | some mt =>
      simp only [hew] at h
      cases hld : load mt version with
      | error e => simp only [hld] at h; exact PResult.noConfusion h
      | ok m =>
        simp only [hld] at h
        unfold sanity_check_mapper at h
        by_cases h1 : m.from_ = prev
        · rw [if_pos h1] at h
          by_cases h2 : m.to_ = next
          · rw [if_pos h2] at h
            cases hrec : loadChain load version next rest with
            | ok ms' =>
              simp only [hrec] at h
              cases h
              exact ⟨h1, h2, ih next ms' hrec⟩
            | error e => simp only [hrec] at h; exact PResult.noConfusion h
            | panicked msg => simp only [hrec] at h; exact PResult.noConfusion h
          · rw [if_neg h2] at h; simp at h
        · rw [if_neg h1] at h; simp at h

theorem endpointsMatch_map_to :
    ∀ (nodes : List NamesType) (prev : NamesType) (ms : List BaseMapper),
      EndpointsMatch prev nodes ms → ms.map (fun m => m.to_) = nodes := by
  intro nodes
  induction nodes with
  | nil =>
    intro prev ms h
    cases ms with
    | nil => rfl
    | cons m ms' => exact False.elim h
  | cons next rest ih =>
    intro prev ms h
    cases ms with
    | nil => exact False.elim h
    | cons m ms' =>
      obtain ⟨_, h2, h3⟩ := h
      rw [List.map_cons, h2, ih next ms' h3]

theorem endpointsMatch_chain :
    ∀ (nodes : List NamesType) (prev : NamesType) (ms : List BaseMapper),
      EndpointsMatch prev nodes ms → ms.Chain' (fun a b => a.to_ = b.from_) := by
  intro nodes
  induction nodes with
  | nil =>
    intro prev ms h
    cases ms with
    | nil => exact List.chain'_nil
    | cons m ms' => exact False.elim h
  | cons next rest ih =>
    intro prev ms h
    cases ms with
    | nil => exact False.elim h
    | cons m ms' =>
      obtain ⟨_, h2, h3⟩ := h
      have hch := ih next ms' h3
      cases ms' with
      | nil => exact List.chain'_singleton m
      | cons m' ms'' =>
        cases rest with
        | nil => exact False.elim h3
        | cons r rs =>
          obtain ⟨h1', _, _⟩ := h3
          exact List.chain'_cons.2 ⟨h2.trans h1'.symm, hch⟩

theorem endpointsMatch_head (prev next : NamesType) (rest : List NamesType)
    (ms : List BaseMapper) (h : EndpointsMatch prev (next :: rest) ms) :
    ms.head?.map (fun m => m.from_) = some prev := by
  cases ms with
  | nil => exact False.elim h
  | cons m ms' =>
    obtain ⟨h1, _, _⟩ := h
    simp [h1]

theorem endpointsMatch_last (nodes : List NamesType) (prev : NamesType)
    (ms : List BaseMapper) (h : EndpointsMatch prev nodes ms) :
    ms.getLast?.map (fun m => m.to_) = nodes.getLast? := by
  rw [← endpointsMatch_map_to nodes prev ms h, List.getLast?_map]

/-- Claim C3: a successfully produced composite satisfies the adjacency
invariant — `mappers[i].to = mappers[i+1].from`, the first mapper starts at
the requested `from`, the last ends at the requested `to` — and inside the
loading loop a loaded mapper whose endpoints disagree with the
corresponding path nodes makes the computation panic (abort) rather than
return. -/
theorem c3_composer_adjacency (load : MappingType → String → Except String BaseMapper)
    (version : String) (f t : NamesType) :
    (∀ ms : List BaseMapper,
      generate_mapper load version f t = .ok (.multi ⟨ms⟩) →
        ms.Chain' (fun a b => a.to_ = b.from_) ∧
        ms.head?.map (fun m => m.from_) = some f ∧
        ms.getLast?.map (fun m => m.to_) = some t) ∧
    (∀ (prev next : NamesType) (rest : List NamesType) (mt : MappingType) (m : BaseMapper),
      edgeWeight prev next = some mt →
      load mt version = .ok m →
      (m.from_ ≠ prev ∨ m.to_ ≠ next) →
      loadChain load version prev (next :: rest) = .panicked (sanityMsg prev next)) := by
  constructor
  · intro ms h
    unfold generate_mapper at h
    cases hp : findPath f t with
    | none => simp only [hp] at h; exact PResult.noConfusion h
    | some path =>
      simp only [hp] at h
      have hshape := findPath_shape f t
      rw [hp] at hshape
      simp only [Option.all, Bool.and_eq_true, beq_iff_eq] at hshape
      cases path with
      | nil => simp at h
      | cons a tail =>
        cases tail with
        | nil => simp at h
        | cons b rest =>
          have ha : a = f := by
            have := hshape.1
            simp only [List.head?_cons, Option.some.injEq] at this
            exact this
          cases rest with
          | nil =>
            cases hew : edgeWeight a b with
            | none => simp only [hew] at h; exact PResult.noConfusion h
            | some mt =>
              simp only [hew] at h
              cases hld : load mt version with
              | error e => simp only [hld] at h; exact PResult.noConfusion h
              | ok m =>
                simp only [hld] at h
                unfold sanity_check_mapper at h
                by_cases h1 : m.from_ = f
                · rw [if_pos h1] at h
                  by_cases h2 : m.to_ = t
                  · rw [if_pos h2] at h; simp at h
                  · rw [if_neg h2] at h; simp at h
                · rw [if_neg h1] at h; simp at h
          | cons r rs =>
            cases hlc : loadChain load version a (b :: r :: rs) with
            | error e => simp only [hlc] at h; exact PResult.noConfusion h
            | panicked msg => simp only [hlc] at h; exact PResult.noConfusion h
            | ok ms' =>
              simp only [hlc, PResult.ok.injEq, EitherMapper.multi.injEq,
                MultiMapper.mk.injEq] at h
              subst h
              have hem := loadChain_ok load version (b :: r :: rs) a ms' hlc
              refine ⟨endpointsMatch_chain _ _ _ hem, ?_, ?_⟩
              · rw [endpointsMatch_head a b (r :: rs) ms' hem, ha]
              · rw [endpointsMatch_last (b :: r :: rs) a ms' hem]
                have := hshape.2
                simpa using this
  · intro prev next rest mt m hew hld hmm
    unfold loadChain
    simp only [hew, hld]
    unfold sanity_check_mapper
    rcases hmm with h1 | h2
    · rw [if_neg h1]
    · by_cases h1 : m.from_ = prev
      · rw [if_pos h1, if_neg h2]
      · rw [if_neg h1]

theorem c3_witness :
    ([BaseMapper.mk .mojang .obfuscated "1" ⟨[]⟩,
        BaseMapper.mk .obfuscated .fabricIntermediary "1" ⟨[]⟩].Chain'
          (fun a b => a.to_ = b.from_) ∧
      ([BaseMapper.mk .mojang .obfuscated "1" ⟨[]⟩,
        BaseMapper.mk .obfuscated .fabricIntermediary "1" ⟨[]⟩].head?.map
          (fun m => m.from_) = some .mojang) ∧
      ([BaseMapper.mk .mojang .obfuscated "1" ⟨[]⟩,
        BaseMapper.mk .obfuscated .fabricIntermediary "1" ⟨[]⟩].getLast?.map
          (fun m => m.to_) = some .fabricIntermediary)) ∧
    loadChain (fun _ _ => Except.ok (BaseMapper.mk .fabricIntermediary .fabricIntermediary "1" ⟨[]⟩))
        "1" .obfuscated [.mojang] =
      .panicked (sanityMsg .obfuscated .mojang) :=
  ⟨(c3_composer_adjacency
      (fun mt _ => Except.ok (match mt with
        | .obfToMojang => BaseMapper.mk .obfuscated .mojang "1" ⟨[]⟩
        | .mojangToObf => BaseMapper.mk .mojang .obfuscated "1" ⟨[]⟩
        | .obfToFabricIntermediary => BaseMapper.mk .obfuscated .fabricIntermediary "1" ⟨[]⟩
        | .fabricIntermediaryToObf => BaseMapper.mk .fabricIntermediary .obfuscated "1" ⟨[]⟩))
      "1" .mojang .fabricIntermediary).1
    [BaseMapper.mk .mojang .obfuscated "1" ⟨[]⟩,
      BaseMapper.mk .obfuscated .fabricIntermediary "1" ⟨[]⟩] rfl,
   (c3_composer_adjacency
      (fun _ _ => Except.ok (BaseMapper.mk .fabricIntermediary .fabricIntermediary "1" ⟨[]⟩))
      "1" .mojang .fabricIntermediary).2
    .obfuscated .mojang [] .obfToMojang
    (BaseMapper.mk .fabricIntermediary .fabricIntermediary "1" ⟨[]⟩)
    rfl rfl (Or.inl (by decide))⟩

/-! ## Claims C4 and C5: the download cache -/

theorem verify_ok_hash (env : CacheEnv) (hc : HashCode) (contents : List Nat)
    (h : HashCode.verify env hc contents = .ok ()) :
    hashOf env hc contents = toLowerAscii hc.value := by
  simp only [HashCode.verify] at h
  by_cases hh : hashOf env hc contents = toLowerAscii hc.value
  · exact hh
  · rw [if_neg hh] at h
    exact Except.noConfusion h

theorem validate_ok_conditions (env : CacheEnv) (dl : MappingDownload) (contents : List Nat)
    (h : validate_mappings env dl contents = .ok ()) :
    (∀ s, dl.size = some s → contents.length = s) ∧
    hashOf env dl.hash contents = toLowerAscii dl.hash.value := by
  unfold validate_mappings at h
  cases hds : dl.size with
  | none =>
    simp only [hds] at h
    refine ⟨fun s hs => ?_, verify_ok_hash env dl.hash contents h⟩
    exact Option.noConfusion hs
  | some expect =>
    simp only [hds] at h
    by_cases hsz : contents.length ≠ expect
    · rw [if_pos hsz] at h
      exact Except.noConfusion h
    · rw [if_neg hsz] at h
      push_neg at hsz
      refine ⟨fun s hs => ?_, verify_ok_hash env dl.hash contents h⟩
      cases hs
      exact hsz

theorem load_attempts_ok (env : CacheEnv) (dl : MappingDownload) :
    ∀ (n : Nat) (st : CacheState) (fs : List String) (file : FileHandle) (st' : CacheState),
      load_attempts env dl n st fs = .ok file st' →
      validate_mappings env dl file.contents = .ok () ∧ file.pos = 0 := by
  intro n
  induction n with
  | zero =>
    intro st fs file st' h
    exact LoadOutcome.noConfusion h
  | succ n ih =>
    intro st fs file st' h
    unfold load_attempts at h
    cases hof : openOrFetch env st with
    | error e => simp only [hof] at h; exact LoadOutcome.noConfusion h
    | ok p =>
      obtain ⟨contents, st1⟩ := p
      simp only [hof] at h
      cases hval : validate_mappings env dl contents with
      | ok u =>
        cases u
        simp only [hval] at h
        cases h
        exact ⟨hval, rfl⟩
      | error v =>
        simp only [hval] at h
        exact ih _ _ _ _ h

/-- Claim C4: whenever `load_mappings` succeeds, the returned file's length
equals the declared size (when one is declared), the declared digest of the
full contents equals the declared hex compared case-insensitively (the
computed digest is lowercase hex, and the expectation is lowercased), and
the file is positioned at byte 0, so the first read yields exactly the
validated bytes. -/
theorem c4_load_mappings_integrity (env : CacheEnv) (dl : MappingDownload)
    (st : CacheState) (file : FileHandle) (st' : CacheState)
    (h : load_mappings env dl st = .ok file st') :
    (∀ s, dl.size = some s → file.contents.length = s) ∧
    hashOf env dl.hash file.contents = toLowerAscii dl.hash.value ∧
    file.pos = 0 := by
  have hk := load_attempts_ok env dl 5 st [] file st' h
  have hv := validate_ok_conditions env dl file.contents hk.1
  exact ⟨hv.1, hv.2, hk.2⟩

theorem c4_witness :
    (∀ s, dlGood.size = some s → (FileHandle.mk [7] 0).contents.length = s) ∧
    hashOf envGood dlGood.hash (FileHandle.mk [7] 0).contents =
      toLowerAscii dlGood.hash.value ∧
    (FileHandle.mk [7] 0).pos = 0 :=
  c4_load_mappings_integrity envGood dlGood (CacheState.mk (some [7]) 0)
    (FileHandle.mk [7] 0) (CacheState.mk (some [7]) 0) rfl

theorem load_attempts_all_fail (env : CacheEnv) (dl : MappingDownload)
    (hdl : ∀ i, ∃ b, env.download i = .ok b)
    (hv : ∀ c, ∃ v, validate_mappings env dl c = .error v) :
    ∀ (n : Nat) (st : CacheState) (fs : List String),
      ∃ fs', load_attempts env dl n st fs = .failed fs' ∧ fs'.length = fs.length + n := by
  intro n
  induction n with
  | zero => intro st fs; exact ⟨fs, rfl, rfl⟩
  | succ n ih =>
    intro st fs
    unfold load_attempts
    cases hcf : st.cacheFile with
    | some c =>
      have hof : openOrFetch env st = .ok (c, st) := by
        unfold openOrFetch
        rw [hcf]
      obtain ⟨v, hval⟩ := hv c
      simp only [hof, hval]
      obtain ⟨fs', h1, h2⟩ :=
        ih { st with cacheFile := none } (fs ++ [v ++ "; Source: " ++ dl.source])
      refine ⟨fs', h1, ?_⟩
      rw [h2, List.length_append]
      simp
      omega
    | none =>
      obtain ⟨b, hb⟩ := hdl st.fetchCount
      have hof : openOrFetch env st =
          .ok (b, { cacheFile := some b, fetchCount := st.fetchCount + 1 }) := by
        unfold openOrFetch
        simp only [hcf, hb]
      obtain ⟨v, hval⟩ := hv b
      simp only [hof, hval]
      obtain ⟨fs', h1, h2⟩ :=
        ih { cacheFile := none, fetchCount := st.fetchCount + 1 }
          (fs ++ [v ++ "; Source: " ++ dl.source])
      refine ⟨fs', h1, ?_⟩
      rw [h2, List.length_append]
      simp
      omega

/-- Claim C5: no attempts left gives up with exactly the recorded failures;
a failed validation deletes the cached file, records the failure and
restarts the cycle; `load_mappings` is 5 such attempts starting with no
failures; and when every download succeeds but nothing validates it returns
the error carrying all 5 collected failures. -/
theorem c5_retry_and_give_up (env : CacheEnv) (dl : MappingDownload) :
    (∀ (st : CacheState) (fs : List String), load_attempts env dl 0 st fs = .failed fs) ∧
    (∀ (n : Nat) (st st' : CacheState) (contents : List Nat) (v : String) (fs : List String),
      openOrFetch env st = .ok (contents, st') →
      validate_mappings env dl contents = .error v →
      load_attempts env dl (n + 1) st fs =
        load_attempts env dl n { st' with cacheFile := none }
          (fs ++ [v ++ "; Source: " ++ dl.source])) ∧
    (∀ st : CacheState, load_mappings env dl st = load_attempts env dl 5 st []) ∧
    ((∀ i, ∃ b, env.download i = .ok b) →
      (∀ c, ∃ v, validate_mappings env dl c = .error v) →
      ∀ st : CacheState, ∃ fs, load_mappings env dl st = .failed fs ∧ fs.length = 5) := by
  refine ⟨fun st fs => rfl, ?_, fun st => rfl, ?_⟩
  · intro n st st' contents v fs hof hval
    conv_lhs => unfold load_attempts
    simp only [hof, hval]
  · intro hdl hv st
    obtain ⟨fs, h1, h2⟩ := load_attempts_all_fail env dl hdl hv 5 st []
    exact ⟨fs, h1, h2⟩

theorem c5_witness :
    load_attempts envAlwaysBad dlBad 0 (CacheState.mk none 0) [] = .failed [] ∧
    load_attempts envAlwaysBad dlBad 1 (CacheState.mk (some []) 0) [] =
      load_attempts envAlwaysBad dlBad 0 (CacheState.mk none 0)
        ([] ++ ["Mappings file had hash 00, expected ff" ++ "; Source: " ++ dlBad.source]) ∧
    load_mappings envAlwaysBad dlBad (CacheState.mk none 0) =
      load_attempts envAlwaysBad dlBad 5 (CacheState.mk none 0) [] ∧
    (∃ fs, load_mappings envAlwaysBad dlBad (CacheState.mk none 0) = .failed fs ∧
      fs.length = 5) :=
  ⟨(c5_retry_and_give_up envAlwaysBad dlBad).1 (CacheState.mk none 0) [],
   (c5_retry_and_give_up envAlwaysBad dlBad).2.1 0 (CacheState.mk (some []) 0)
     (CacheState.mk (some []) 0) [] "Mappings file had hash 00, expected ff" [] rfl rfl,
   (c5_retry_and_give_up envAlwaysBad dlBad).2.2.1 (CacheState.mk none 0),
   (c5_retry_and_give_up envAlwaysBad dlBad).2.2.2 (fun _ => ⟨[], rfl⟩)
     (fun _ => ⟨"Mappings file had hash 00, expected ff", rfl⟩) (CacheState.mk none 0)⟩

/-! ## Claim C8: tiny-v2 slash normalization -/

theorem contains_map_slash (l : List Char) :
    (l.map (fun c => if c = '/' then '.' else c)).contains '/' = false := by
  induction l with
  | nil => rfl
  | cons c rest ih =>
    simp only [List.map_cons, List.contains_cons, Bool.or_eq_false_iff]
    refine ⟨?_, ih⟩
    by_cases hc : c = '/'
    · simp [hc]
    · rw [if_neg hc]
      simp only [beq_eq_false_iff_ne, ne_eq]
      exact fun h => hc h.symm

theorem strSlashFree_replaceSlash (s : String) : strSlashFree (replaceSlash s) = true := by
  unfold strSlashFree replaceSlash
  rw [show (String.mk (s.data.map (fun c => if c = '/' then '.' else c))).data
      = s.data.map (fun c => if c = '/' then '.' else c) from rfl]
  rw [contains_map_slash s.data]
  rfl

theorem rawTy_build_slashFree (r : RawTy) : r.build.slashFree = true := by
  induction r with
  | obj s => exact strSlashFree_replaceSlash s
  | arr t ih => exact ih
  | void => rfl
  | boolean => rfl
  | byte => rfl
  | short => rfl
  | char => rfl
  | int => rfl
  | long => rfl
  | float => rfl
  | double => rfl

theorem buildDescriptor_slashFree (params : List RawTy) (ret : RawTy) :
    (buildDescriptor params ret).slashFree = true := by
  unfold buildDescriptor Descriptor.slashFree
  rw [Bool.and_eq_true]
  constructor
  · rw [List.all_eq_true]
    intro t ht
    obtain ⟨r, _, hr⟩ := List.mem_map.1 ht
    exact hr ▸ rawTy_build_slashFree r
  · exact rawTy_build_slashFree ret

theorem tinyMethodsToRaw_built :
    ∀ (rs : List RawMethodSec) (ms : List RawMethodMapping),
      tinyMethodsToRaw (rs.map buildMethodSection) = some ms →
      ∀ m ∈ ms, m.descriptor.slashFree = true := by
  intro rs
  induction rs with
  | nil =>
    intro ms h m hm
    cases h
    exact absurd hm (List.not_mem_nil m)
  | cons r rest ih =>
    intro ms h m hm
    unfold tinyMethodsToRaw tinyMethodToRaw firstMapped at h
    simp only [List.map_cons, buildMethodSection] at h
    cases hmn : r.mapped_names with
    | nil => simp only [hmn] at h; exact Option.noConfusion h
    | cons o os =>
      simp only [hmn] at h
      cases o with
      | none => exact ih ms h m hm
      | some n =>
        cases hrec : tinyMethodsToRaw (rest.map buildMethodSection) with
        | none => simp only [hrec] at h; exact Option.noConfusion h
        | some ms' =>
          simp only [hrec, Option.map_some', Option.some.injEq] at h
          subst h
          rcases List.mem_cons.1 hm with hm1 | hm2
          · rw [hm1]
            exact buildDescriptor_slashFree r.params r.ret
          · exact ih ms' hrec m hm2

theorem tinyClassesToRaw_built :
    ∀ (rs : List RawClassSec) (cs : List RawClassMapping),
      tinyClassesToRaw (rs.map buildClassSection) = some cs →
      ∀ c ∈ cs, strSlashFree c.mapping.1 = true ∧ strSlashFree c.mapping.2 = true ∧
        ∀ m ∈ c.methods, m.descriptor.slashFree = true := by
  intro rs
  induction rs with
  | nil =>
    intro cs h c hc
    cases h
    exact absurd hc (List.not_mem_nil c)
  | cons r rest ih =>
    intro cs h c hc
    unfold tinyClassesToRaw tinyClassToRaw firstMapped at h
    simp only [List.map_cons, buildClassSection] at h
    cases hmn : r.mapped_names with
    | nil => simp only [hmn, List.map_nil] at h; exact Option.noConfusion h
    | cons o os =>
      simp only [hmn, List.map_cons] at h
      cases o with
      | none => exact ih cs h c hc
      | some n =>
        simp only [Option.map_some'] at h
        cases hms : tinyMethodsToRaw (r.methods.map buildMethodSection) with
        | none => simp only [hms] at h; exact Option.noConfusion h
        | some ms =>
          simp only [hms] at h
          cases hrec : tinyClassesToRaw (rest.map buildClassSection) with
          | none => simp only [hrec] at h; exact Option.noConfusion h
          | some cs' =>
            simp only [hrec, Option.map_some', Option.some.injEq] at h
            subst h
            rcases List.mem_cons.1 hc with hc1 | hc2
            · subst hc1
              exact ⟨strSlashFree_replaceSlash r.name_a, strSlashFree_replaceSlash n,
                tinyMethodsToRaw_built r.methods ms hms⟩
            · exact ih cs' hrec c hc2

theorem insertAssoc_preserves {β : Type} (P : String × β → Prop) (k : String) (v : β) :
    ∀ (l : List (String × β)), (∀ p ∈ l, P p) → P (k, v) →
      ∀ p ∈ insertAssoc k v l, P p := by
  intro l
  induction l with
  | nil =>
    intro _ hkv p hp
    rcases List.mem_cons.1 hp with h1 | h2
    · exact h1 ▸ hkv
    · exact absurd h2 (List.not_mem_nil p)
  | cons q rest ih =>
    intro hl hkv p hp
    obtain ⟨k', v'⟩ := q
    unfold insertAssoc at hp
    by_cases hk : k' = k
    · rw [if_pos hk] at hp
      rcases List.mem_cons.1 hp with h1 | h2
      · exact h1 ▸ hkv
      · exact hl _ (List.mem_cons_of_mem _ h2)
    · rw [if_neg hk] at hp
      rcases List.mem_cons.1 hp with h1 | h2
      · exact hl _ (h1 ▸ List.mem_cons_self _ _)
      · exact ih (fun p hp => hl p (List.mem_cons_of_mem _ hp)) hkv p h2

theorem insertMethod_preserves (P : MethodId × MethodId → Prop) (k v : MethodId) :
    ∀ (l : List (MethodId × MethodId)), (∀ p ∈ l, P p) → P (k, v) →
      ∀ p ∈ insertMethod k v l, P p := by
  intro l
  induction l with
  | nil =>
    intro _ hkv p hp
    rcases List.mem_cons.1 hp with h1 | h2
    · exact h1 ▸ hkv
    · exact absurd h2 (List.not_mem_nil p)
  | cons q rest ih =>
    intro hl hkv p hp
    obtain ⟨k', v'⟩ := q
    unfold insertMethod at hp
    by_cases hk : k' = k
    · rw [if_pos hk] at hp
      rcases List.mem_cons.1 hp with h1 | h2
      · exact h1 ▸ hkv
      · exact hl _ (List.mem_cons_of_mem _ h2)
    · rw [if_neg hk] at hp
      rcases List.mem_cons.1 hp with h1 | h2
      · exact hl _ (h1 ▸ List.mem_cons_self _ _)
      · exact ih (fun p hp => hl p (List.mem_cons_of_mem _ hp)) hkv p h2

theorem foldl_insertAssoc_preserves {β : Type} (P : String × β → Prop)
    (f : RawClassMapping → String × β) (hf : ∀ c, P (f c)) :
    ∀ (ms : List RawClassMapping) (acc : List (String × β)), (∀ p ∈ acc, P p) →
      ∀ p ∈ ms.foldl (fun acc c => insertAssoc (f c).1 (f c).2 acc) acc, P p := by
  intro ms
  induction ms with
  | nil => intro acc hacc p hp; exact hacc p hp
  | cons c rest ih =>
    intro acc hacc p hp
    rw [List.foldl_cons] at hp
    exact ih _ (insertAssoc_preserves P (f c).1 (f c).2 acc hacc (by simpa using hf c)) p hp

theorem buildClassTable_values (ms : List RawClassMapping)
    (h : ∀ c ∈ ms, strSlashFree c.mapping.2 = true) :
    ∀ p ∈ buildClassTable ms, strSlashFree p.2 = true := by
  unfold buildClassTable
  -- generalize the accumulator
  suffices hgen : ∀ (l : List RawClassMapping), (∀ c ∈ l, strSlashFree c.mapping.2 = true) →
      ∀ (acc : List (String × String)), (∀ p ∈ acc, strSlashFree p.2 = true) →
      ∀ p ∈ l.foldl (fun acc c => insertAssoc c.mapping.1 c.mapping.2 acc) acc,
        strSlashFree p.2 = true by
    intro p hp
    exact hgen ms h [] (fun p hp => absurd hp (List.not_mem_nil p)) p hp
  intro l
  induction l with
  | nil => intro _ acc hacc p hp; exact hacc p hp
  | cons c rest ih =>
    intro hl acc hacc p hp
    rw [List.foldl_cons] at hp
    refine ih (fun c hc => hl c (List.mem_cons_of_mem _ hc)) _ ?_ p hp
    exact insertAssoc_preserves (fun p => strSlashFree p.2 = true) c.mapping.1 c.mapping.2
      acc hacc (hl c (List.mem_cons_self _ _))

theorem mapSelf_table_slashFree (table : List (String × String))
    (htab : ∀ p ∈ table, strSlashFree p.2 = true) :
    ∀ t : JType, t.slashFree = true →
      (t.map_self (fun n => alookup n table)).slashFree = true := by
  intro t
  induction t with
  | object n =>
    intro h
    unfold JType.map_self
    cases hl : alookup n table with
    | none => exact h
    | some v => exact htab _ (alookup_mem n table v hl)
  | array t ih => intro h; exact ih h
  | void => intro h; exact h
  | boolean => intro h; exact h
  | byte => intro h; exact h
  | char => intro h; exact h
  | short => intro h; exact h
  | int => intro h; exact h
  | long => intro h; exact h
  | float => intro h; exact h
  | double => intro h; exact h

theorem descriptor_mapSelf_slashFree (table : List (String × String))
    (htab : ∀ p ∈ table, strSlashFree p.2 = true) (d : Descriptor)
    (hd : d.slashFree = true) :
    (d.map_self (fun n => alookup n table)).slashFree = true := by
  unfold Descriptor.slashFree at hd ⊢
  rw [Bool.and_eq_true] at hd
  rw [Bool.and_eq_true]
  constructor
  · rw [List.all_eq_true]
    intro t ht
    obtain ⟨t0, ht0, hmap⟩ := List.mem_map.1 ht
    have := (List.all_eq_true.1 hd.1) t0 ht0
    exact hmap ▸ mapSelf_table_slashFree table htab t0 this
  · exact mapSelf_table_slashFree table htab d.return_type hd.2

theorem do_flip_pair_prop {α : Type} (P : α → Prop) (flip : Bool) (p : α × α)
    (h1 : P p.1) (h2 : P p.2) : P (do_flip flip p).1 ∧ P (do_flip flip p).2 := by
  unfold do_flip
  cases flip with
  | true => exact ⟨h2, h1⟩
  | false => exact ⟨h1, h2⟩

theorem convert_mappings_slashFree (pnt snt : NamesType) (version : String)
    (ms : List RawClassMapping) (flip : Bool)
    (h : ∀ c ∈ ms, strSlashFree c.mapping.1 = true ∧ strSlashFree c.mapping.2 = true ∧
      ∀ m ∈ c.methods, m.descriptor.slashFree = true) :
    (convert_mappings pnt snt version ms flip).classNamesSlashFree = true := by
  unfold BaseMapper.classNamesSlashFree convert_mappings
  rw [List.all_eq_true]
  intro p hp
  have htab : ∀ q ∈ buildClassTable ms, strSlashFree q.2 = true :=
    buildClassTable_values ms (fun c hc => (h c hc).2.1)
  -- the entry property maintained through the outer fold
  suffices hgen : ∀ (l : List RawClassMapping), (∀ c ∈ l, c ∈ ms) →
      ∀ (acc : List (String × ClassMapping)),
        (∀ q ∈ acc, (strSlashFree q.1 && strSlashFree q.2.to_name &&
          q.2.methods.all (fun m => m.1.descriptor.slashFree && m.2.descriptor.slashFree)) = true) →
      ∀ q ∈ l.foldl (fun acc class_ =>
          let ft := do_flip flip class_.mapping
          let methods := class_.methods.foldl (fun macc method =>
            let first_id : MethodId := ⟨method.mapping.1, method.descriptor⟩
            let second_id : MethodId :=
              ⟨method.mapping.2, method.descriptor.map_self
                (fun n => alookup n (buildClassTable ms))⟩
            let kv := do_flip flip (first_id, second_id)
            insertMethod kv.1 kv.2 macc) []
          insertAssoc ft.1 ⟨ft.2, methods⟩ acc) acc,
        (strSlashFree q.1 && strSlashFree q.2.to_name &&
          q.2.methods.all (fun m => m.1.descriptor.slashFree && m.2.descriptor.slashFree)) = true by
    exact hgen ms (fun c hc => hc) [] (fun q hq => absurd hq (List.not_mem_nil q)) p hp
  intro l
  induction l with
  | nil => intro _ acc hacc q hq; exact hacc q hq
  | cons c rest ih =>
    intro hl acc hacc q hq
    rw [List.foldl_cons] at hq
    refine ih (fun c' hc' => hl c' (List.mem_cons_of_mem _ hc')) _ ?_ q hq
    have hc := h c (hl c (List.mem_cons_self _ _))
    refine insertAssoc_preserves _ _ _ acc hacc ?_
    have hft := do_flip_pair_prop (fun s => strSlashFree s = true) flip c.mapping hc.1 hc.2.1
    rw [Bool.and_eq_true, Bool.and_eq_true]
    refine ⟨⟨hft.1, hft.2⟩, ?_⟩
    rw [List.all_eq_true]
    -- the inner method fold
    suffices hmeth : ∀ (ml : List RawMethodMapping), (∀ m ∈ ml, m ∈ c.methods) →
        ∀ (macc : List (MethodId × MethodId)),
          (∀ r ∈ macc, (r.1.descriptor.slashFree && r.2.descriptor.slashFree) = true) →
        ∀ r ∈ ml.foldl (fun macc method =>
            let first_id : MethodId := ⟨method.mapping.1, method.descriptor⟩
            let second_id : MethodId :=
              ⟨method.mapping.2, method.descriptor.map_self
                (fun n => alookup n (buildClassTable ms))⟩
            let kv := do_flip flip (first_id, second_id)
            insertMethod kv.1 kv.2 macc) macc,
          (r.1.descriptor.slashFree && r.2.descriptor.slashFree) = true by
      intro r hr
      exact hmeth c.methods (fun m hm => hm) []
        (fun r hr => absurd hr (List.not_mem_nil r)) r hr
    intro ml
    induction ml with
    | nil => intro _ macc hmacc r hr; exact hmacc r hr
    | cons mth mrest mih =>
      intro hml macc hmacc r hr
      rw [List.foldl_cons] at hr
      refine mih (fun m hm => hml m (List.mem_cons_of_mem _ hm)) _ ?_ r hr
      have hmd := hc.2.2 mth (hml mth (List.mem_cons_self _ _))
      have hkv := do_flip_pair_prop (fun mid : MethodId => mid.descriptor.slashFree = true) flip
        (⟨mth.mapping.1, mth.descriptor⟩,
         ⟨mth.mapping.2, mth.descriptor.map_self (fun n => alookup n (buildClassTable ms))⟩)
        hmd (descriptor_mapSelf_slashFree (buildClassTable ms) htab mth.descriptor hmd)
      refine insertMethod_preserves _ _ _ macc hmacc ?_
      rw [Bool.and_eq_true]
      exact hkv

/-- Claim C8: a `BaseMapper` built from a parsed tiny-v2 file (the image of
the section builders, which replace every `/` by `.` in the primary class
name, the mapped class names and the descriptor object types) contains no
`/` in any stored class name. -/
theorem c8_slash_normalization (rs : List RawClassSec) (version : String) (flip : Bool)
    (b : BaseMapper)
    (h : fabric_load_pure (buildTinyContent rs) version flip = some b) :
    b.classNamesSlashFree = true := by
  unfold fabric_load_pure at h
  cases hr : tinyClassesToRaw (buildTinyContent rs).classes with
  | none => simp only [hr, Option.map_none'] at h; exact Option.noConfusion h
  | some raw =>
    simp only [hr, Option.map_some', Option.some.injEq] at h
    subst h
    exact convert_mappings_slashFree _ _ _ _ _ (tinyClassesToRaw_built rs raw hr)

theorem c8_witness :
    ∃ b, fabric_load_pure
        (buildTinyContent [⟨"a/B", [some "c/D"], [⟨[.int], .void, "foo", [some "bar"]⟩]⟩])
        "1" false = some b ∧
      b.classNamesSlashFree = true :=
  ⟨_, rfl, c8_slash_normalization
    [⟨"a/B", [some "c/D"], [⟨[.int], .void, "foo", [some "bar"]⟩]⟩] "1" false _ rfl⟩

/-! ## Claim C9: parse-rewrite-print round trip -/

/-- Claim C9 (scenario S1): parsing the concrete NPE trace, rewriting it
with the identity-on-`a.b.C` mapper and printing it yields the input
byte-for-byte. -/
theorem c9_identity_roundtrip :
    (parseStacktraceFn s1Input).map (fun st => (st.map_self s1Mapper).display) =
      some s1Input := by
  rfl

/-! ## Claim C10: self-mapping panics -/

/-- Claim C10: for every loader, version and naming scheme `X`,
`generate_mapper(version, X, X)` neither returns a mapper nor an error: the
search yields the single-node path `[X]` and the length assertion panics. -/
theorem c10_self_mapping_panics (load : MappingType → String → Except String BaseMapper)
    (version : String) (x : NamesType) :
    generate_mapper load version x x = .panicked "Path must have at least two elements" := by
  cases x <;> rfl

end StackedPortrayals
